import Mathlib

/-!
Verification of the record reconciliation engine in
`datasets/backends/base.py` (class `Base`).

Records are modelled as association lists of string keys to `Val` values
(Python `dict`s with unique keys, insertion-ordered).  External collaborators
from the `slovar`/`prf` libraries (`update_with`, `extract`, `typecast`,
transformers, normalizers, source consolidation) are modelled from the
specification; everything else is translated from the source.
-/

namespace Datasets

/-- A JSON-like value: the payload type of record fields. -/
inductive Val where
  | vnull
  | vstr (s : String)
  | vint (n : Int)
  | vbool (b : Bool)
  | vlist (xs : List Val)
  | vdict (fs : List (String × Val))
  deriving Repr, Inhabited

mutual

/-- Decidable equality on values (hand-rolled: `Val` is a nested inductive). -/
def valDecEq : (a b : Val) → Decidable (a = b)
  | .vnull, .vnull => .isTrue rfl
  | .vnull, .vstr _ => .isFalse (fun h => Val.noConfusion h)
  | .vnull, .vint _ => .isFalse (fun h => Val.noConfusion h)
  | .vnull, .vbool _ => .isFalse (fun h => Val.noConfusion h)
  | .vnull, .vlist _ => .isFalse (fun h => Val.noConfusion h)
  | .vnull, .vdict _ => .isFalse (fun h => Val.noConfusion h)
  | .vstr _, .vnull => .isFalse (fun h => Val.noConfusion h)
  | .vstr a, .vstr b =>
      if h : a = b then .isTrue (h ▸ rfl)
      else .isFalse (fun hh => h (Val.vstr.inj hh))
  | .vstr _, .vint _ => .isFalse (fun h => Val.noConfusion h)
  | .vstr _, .vbool _ => .isFalse (fun h => Val.noConfusion h)
  | .vstr _, .vlist _ => .isFalse (fun h => Val.noConfusion h)
  | .vstr _, .vdict _ => .isFalse (fun h => Val.noConfusion h)
  | .vint _, .vnull => .isFalse (fun h => Val.noConfusion h)
  | .vint _, .vstr _ => .isFalse (fun h => Val.noConfusion h)
  | .vint a, .vint b =>
      if h : a = b then .isTrue (h ▸ rfl)
      else .isFalse (fun hh => h (Val.vint.inj hh))
  | .vint _, .vbool _ => .isFalse (fun h => Val.noConfusion h)
  | .vint _, .vlist _ => .isFalse (fun h => Val.noConfusion h)
  | .vint _, .vdict _ => .isFalse (fun h => Val.noConfusion h)
  | .vbool _, .vnull => .isFalse (fun h => Val.noConfusion h)
  | .vbool _, .vstr _ => .isFalse (fun h => Val.noConfusion h)
  | .vbool _, .vint _ => .isFalse (fun h => Val.noConfusion h)
  | .vbool a, .vbool b =>
      if h : a = b then .isTrue (h ▸ rfl)
      else .isFalse (fun hh => h (Val.vbool.inj hh))
  | .vbool _, .vlist _ => .isFalse (fun h => Val.noConfusion h)
  | .vbool _, .vdict _ => .isFalse (fun h => Val.noConfusion h)
  | .vlist _, .vnull => .isFalse (fun h => Val.noConfusion h)
  | .vlist _, .vstr _ => .isFalse (fun h => Val.noConfusion h)
  | .vlist _, .vint _ => .isFalse (fun h => Val.noConfusion h)
  | .vlist _, .vbool _ => .isFalse (fun h => Val.noConfusion h)
  | .vlist xs, .vlist ys =>
      match valListDecEq xs ys with
      | .isTrue h => .isTrue (h ▸ rfl)
      | .isFalse h => .isFalse (fun hh => h (Val.vlist.inj hh))
  | .vlist _, .vdict _ => .isFalse (fun h => Val.noConfusion h)
  | .vdict _, .vnull => .isFalse (fun h => Val.noConfusion h)
  | .vdict _, .vstr _ => .isFalse (fun h => Val.noConfusion h)
  | .vdict _, .vint _ => .isFalse (fun h => Val.noConfusion h)
  | .vdict _, .vbool _ => .isFalse (fun h => Val.noConfusion h)
  | .vdict _, .vlist _ => .isFalse (fun h => Val.noConfusion h)
  | .vdict xs, .vdict ys =>
      match valDictDecEq xs ys with
      | .isTrue h => .isTrue (h ▸ rfl)
      | .isFalse h => .isFalse (fun hh => h (Val.vdict.inj hh))

/-- Decidable equality on lists of values. -/
def valListDecEq : (xs ys : List Val) → Decidable (xs = ys)
  | [], [] => .isTrue rfl
  | [], _ :: _ => .isFalse (fun h => List.noConfusion h)
  | _ :: _, [] => .isFalse (fun h => List.noConfusion h)
  | x :: xs, y :: ys =>
      match valDecEq x y with
      | .isFalse h => .isFalse (fun hh => h (List.cons.inj hh).1)
      | .isTrue h1 =>
          match valListDecEq xs ys with
          | .isTrue h2 => .isTrue (h1 ▸ h2 ▸ rfl)
          | .isFalse h2 => .isFalse (fun hh => h2 (List.cons.inj hh).2)

/-- Decidable equality on key/value binding lists. -/
def valDictDecEq : (xs ys : List (String × Val)) → Decidable (xs = ys)
  | [], [] => .isTrue rfl
  | [], _ :: _ => .isFalse (fun h => List.noConfusion h)
  | _ :: _, [] => .isFalse (fun h => List.noConfusion h)
  | (k1, v1) :: xs, (k2, v2) :: ys =>
      if hk : k1 = k2 then
        match valDecEq v1 v2 with
        | .isFalse h =>
            .isFalse (fun hh => h (congrArg Prod.snd (List.cons.inj hh).1))
        | .isTrue hv =>
            match valDictDecEq xs ys with
            | .isTrue h2 => .isTrue (hk ▸ hv ▸ h2 ▸ rfl)
            | .isFalse h2 => .isFalse (fun hh => h2 (List.cons.inj hh).2)
      else
        .isFalse (fun hh => hk (congrArg Prod.fst (List.cons.inj hh).1))

end

instance : DecidableEq Val := valDecEq

/-- A record: an insertion-ordered mapping from string keys to values
(a Python `dict` / `slovar.dictset`). -/
abbrev Rec := List (String × Val)

/-- `d[k]` lookup: first binding of the key, if any. -/
def rget : Rec → String → Option Val
  | [], _ => none
  | (k, v) :: rest, k0 => if k = k0 then some v else rget rest k0

/-- `k in d` membership test. -/
def rhas (r : Rec) (k : String) : Bool :=
  (rget r k).isSome

/-- `d[k] = v` assignment: replaces the existing binding in place, or
appends a new binding at the end (Python dict insertion order). -/
def rset : Rec → String → Val → Rec
  | [], k0, v0 => [(k0, v0)]
  | (k, v) :: rest, k0, v0 =>
      if k = k0 then (k, v0) :: rest else (k, v) :: rset rest k0 v0

/-- `d.pop(k, None)`: the record without the key, and the removed value. -/
def rpop : Rec → String → Rec × Option Val
  | [], _ => ([], none)
  | (k, v) :: rest, k0 =>
      if k = k0 then (rest, some v)
      else
        let p := rpop rest k0
        ((k, v) :: p.1, p.2)

/-- Plain `dict.update`: every binding of the second record overwrites or
extends the first. -/
def rupdate (r s : Rec) : Rec :=
  s.foldl (fun acc kv => rset acc kv.1 kv.2) r

/-- Modelled from the spec: `slovar` `.flat()` — "representing a nested
record as a mapping of dotted-path leaves" (glossary).  Nested dictionaries
become dotted keys; other values (including lists) are kept as leaves. -/
def flatR : Rec → Rec
  | [] => []
  | (k, Val.vdict d) :: rest =>
      (flatR d).map (fun kv => (k ++ "." ++ kv.1, kv.2)) ++ flatR rest
  | (k, v) :: rest => (k, v) :: flatR rest

/-- Splitting a character list on a separator character (structural, so
concrete instances evaluate). -/
def split_on_char (c : Char) : List Char → List (List Char)
  | [] => [[]]
  | x :: rest =>
      let r := split_on_char c rest
      if x = c then [] :: r
      else
        match r with
        | [] => [[x]]
        | h :: t => (x :: h) :: t

/-- `'.' in k`: whether a key is a dotted path. -/
def str_contains (s : String) (c : Char) : Bool :=
  s.data.contains c

/-- A dotted path's components (`k.split('.')`). -/
def split_dots (s : String) : List String :=
  (split_on_char '.' s.data).map String.mk

/-- Comma splitting (`s.split(',')`). -/
def split_commas (s : String) : List String :=
  (split_on_char ',' s.data).map String.mk

/-- Whitespace stripping (`s.strip()`). -/
def trim_ws (s : String) : String :=
  String.mk (((s.data.dropWhile Char.isWhitespace).reverse.dropWhile
    Char.isWhitespace).reverse)

/-- Deep assignment of a value at a dotted path (split into components),
descending into nested dictionaries and materialising missing ones. -/
def setPath : Rec → List String → Val → Rec
  | r, [], _ => r
  | r, [k0], v0 => rset r k0 v0
  | r, k0 :: rest, v0 =>
      match rget r k0 with
      | some (Val.vdict d) => rset r k0 (Val.vdict (setPath d rest v0))
      | _ => rset r k0 (Val.vdict (setPath [] rest v0))

/-- Modelled from the spec: `slovar` `.unflat()` — rebuilds the nested
record from its dotted-path leaves. -/
def unflat (r : Rec) : Rec :=
  r.foldl (fun acc kv => setPath acc (split_dots kv.1) kv.2) []

/-- Extraction of one (possibly dotted) path: the sub-record containing just
that path, or empty if the path is absent. -/
def extractPath : Rec → List String → Rec
  | _, [] => []
  | data, [k0] =>
      match rget data k0 with
      | some v => [(k0, v)]
      | none => []
  | data, k0 :: rest =>
      match rget data k0 with
      | some (Val.vdict d) =>
          match extractPath d rest with
          | [] => []
          | sub => [(k0, Val.vdict sub)]
      | _ => []

/-- Modelled from the spec: `slovar` `.extract(fields)` — restricts a record
to the listed (possibly dotted) fields; with no fields listed the record is
returned whole. -/
def extract (data : Rec) (fields : List String) : Rec :=
  if fields.isEmpty then data
  else fields.foldl (fun acc f => rupdate acc (extractPath data (split_dots f))) []

/-- One key of the merge.  Modelled from the spec (§4.4 step 3): fields in
`append_to` concatenate sequence values onto the target's sequence, fields
in `append_to_set` do the same de-duplicated, any other field replaces the
target's value when `overwrite` is true or the target lacks the field. -/
def update_key (acc : Rec) (k : String) (v : Val) (overwrite : Bool)
    (append_to append_to_set : List String) : Rec :=
  if k ∈ append_to then
    match rget acc k, v with
    | some (Val.vlist xs), Val.vlist ys => rset acc k (Val.vlist (xs ++ ys))
    | some (Val.vlist xs), w => rset acc k (Val.vlist (xs ++ [w]))
    | _, Val.vlist ys => rset acc k (Val.vlist ys)
    | _, w => rset acc k (Val.vlist [w])
  else if k ∈ append_to_set then
    match rget acc k, v with
    | some (Val.vlist xs), Val.vlist ys =>
        rset acc k (Val.vlist (xs ++ ys.filter (fun y => !xs.contains y)))
    | some (Val.vlist xs), w =>
        rset acc k (Val.vlist (if xs.contains w then xs else xs ++ [w]))
    | _, Val.vlist ys =>
        rset acc k (Val.vlist (ys.foldl (fun a y => if a.contains y then a else a ++ [y]) []))
    | _, w => rset acc k (Val.vlist [w])
  else if overwrite || !rhas acc k then rset acc k v
  else acc

/-- The merge loop over the incoming record's bindings. -/
def update_with_go : Rec → Rec → Bool → List String → List String → Rec
  | t, [], _, _, _ => t
  | t, (k, v) :: rest, ow, ats, atss =>
      update_with_go (update_key t k v ow ats atss) rest ow ats atss

/-- Modelled from the spec: `slovar` `dictset.update_with(d_, overwrite,
append_to, append_to_set, flatten)` (§4.4 step 3).  With `flatten` both
sides are addressed by fully flattened dotted paths. -/
def update_with (target d_ : Rec) (overwrite : Bool)
    (append_to append_to_set : List String) (flatten : Bool) : Rec :=
  if flatten then
    unflat (update_with_go (flatR target) (flatR d_) overwrite append_to append_to_set)
  else
    update_with_go target d_ overwrite append_to append_to_set

/-- Errors raised by the engine: `DKeyError` (carrying the offending keys)
and `DValueError` (carrying the message). -/
inductive Err where
  | dkey (msg : String) (keys : List String)
  | dvalue (msg : String)
  deriving Repr, DecidableEq

instance {ε α : Type} [DecidableEq ε] [DecidableEq α] :
    DecidableEq (Except ε α) := fun a b =>
  match a, b with
  | .error e1, .error e2 =>
      if h : e1 = e2 then .isTrue (h ▸ rfl)
      else .isFalse (fun hh => h (Except.error.inj hh))
  | .error _, .ok _ => .isFalse (fun hh => Except.noConfusion hh)
  | .ok _, .error _ => .isFalse (fun hh => Except.noConfusion hh)
  | .ok v1, .ok v2 =>
      if h : v1 = v2 then .isTrue (h ▸ rfl)
      else .isFalse (fun hh => h (Except.ok.inj hh))

/-- `{log, source}` metadata extracted from an incoming record
(`Base.extract_meta`). -/
structure Meta where
  log : Rec
  source : Rec
  deriving Repr, DecidableEq

/-- Observable side effects on the Backend and the warning log. -/
inductive Eff where
  | saved (data : Rec)
  | deletedObj (snapshot : Rec)
  | warnedMultiple (n : Nat)
  | loggedNotFound
  deriving Repr, DecidableEq

/-- The typed operation parameters of `Base.__init__` (§6), with their
declared defaults; optional options are `Option`s (`none` = not supplied).
`op` and `op_params` are the two halves of `params.op.partition(":")`. -/
structure Params where
  name : String := "ds"
  keep_ids : Bool := false
  overwrite : Bool := true
  flatten : Bool := false
  append_to : List String := []
  append_to_set : List String := []
  normalize : List String := []
  fields : Option (List String) := none
  pop_empty : List String := []
  keep_source_logs : Bool := false
  dry_run : Bool := false
  log_size : Nat := 256
  log_fields : List String := []
  log_pretty : Bool := false
  fail_on_error : Bool := true
  show_diff : Option (List String) := none
  op : String := "create"
  op_params : String := ""
  skip_by : Option (List String) := none
  transformer : Option String := none
  source_consolidation_mode : Option String := none
  backend : Option String := none
  ns : Option String := none
  query : Option Rec := none
  extra : Option Rec := none
  extra_options : Option Rec := none

/-- External collaborators consumed by the engine, modelled from the spec:
the record-level transformer morpher (§4.5a, first yielded value, already
`__as__`-wrapped), the `normalize` computation (§4.5c), the Value Caster
applied to each leaf (§2, key-preserving), the Provenance Consolidator
(§4.7), and the two injection sentinels `__gid__`/`__today__` (§4.6). -/
structure Ext where
  transform : Rec → Rec
  normalizeF : Rec → List String → Val
  typecastV : Val → Val
  consolidate : Rec → Rec → String → Rec
  gid : String
  today : Val

/-- `prf.utils.typecast` on a record: the Value Caster applied value-wise
(key-preserving). -/
def typecastR (ext : Ext) (r : Rec) : Rec :=
  r.map (fun kv => (kv.1, ext.typecastV kv.2))

/-- The Backend contract consumed by `Base` (§6): `get_collection` returns
the matching records (as plain dicts), and with `_count` set it returns the
match count (modelled by `count`). -/
structure Backend where
  get_collection : Rec → List Rec
  count : Rec → Nat

/-- `Base._operations` after `Base.__init__` has declared every option
(lines 57-83): the closed configuration vocabulary. -/
def operations : List String :=
  ["name", "keep_ids", "overwrite", "flatten", "append_to", "append_to_set",
   "normalize", "fields", "pop_empty", "keep_source_logs", "dry_run",
   "log_size", "log_fields", "log_pretty", "fail_on_error", "show_diff",
   "op", "skip_by", "transformer", "source_consolidation_mode", "backend",
   "query", "extra", "extra_options", "ns"]

/-- `Base.validate_ops` (lines 46-50): any configuration key outside the
declared operation set is fatal, with the offending keys listed. -/
def validate_ops (paramKeys : List String) : Except Err Unit :=
  let invalid_ops := paramKeys.filter (fun k => !operations.contains k)
  if invalid_ops.isEmpty then Except.ok ()
  else Except.error (Err.dkey "Invalid operations" invalid_ops)

/-- `slovar.strings.split_strip`, modelled from the spec (§4.3:
`op:key1,key2` names the key fields): split on commas, strip blanks, drop
empties. -/
def split_strip (s : String) : List String :=
  ((split_commas s).map trim_ws).filter (fun t => t ≠ "")

/-- `Base.run_transformer` (lines 25-34): when a transformer is configured,
the external morpher's first yielded record replaces the data. -/
def run_transformer (p : Params) (ext : Ext) (data : Rec) : Rec :=
  match p.transformer with
  | some _ => ext.transform data
  | none => data

/-- The record's `log` field as a record (`data.pop('log', {})`). -/
def get_log (data : Rec) : Rec :=
  match rget data "log" with
  | some (Val.vdict d) => d
  | _ => []

/-- The record's `source` field as a record (`data.get('source', {})`). -/
def get_source (data : Rec) : Rec :=
  match rget data "source" with
  | some (Val.vdict d) => d
  | _ => []

/-- `Base.extract_log` (lines 102-103): pop the incoming `log` and merge the
run-wide job log over it.  Returns the log and the record with `log`
removed (the pop mutates the record). -/
def extract_log (job_log : Rec) (data : Rec) : Rec × Rec :=
  (update_with (get_log data) job_log true [] [] false, (rpop data "log").1)

/-- `Base.extract_meta` (lines 105-108): `{log, source}` from the incoming
record; the record comes back with `log` popped. -/
def extract_meta (job_log : Rec) (data : Rec) : Meta × Rec :=
  let el := extract_log job_log data
  (⟨el.1, get_source el.2⟩, el.2)

/-- The record's `logs` history as a list (`data.setdefault('logs', [])`). -/
def getLogs (data : Rec) : List Val :=
  match rget data "logs" with
  | some (Val.vlist xs) => xs
  | _ => []

/-- The emptiness test of `pre_save`'s `pop_empty` loop:
`data[ekey] in ['', None, []]`. -/
def is_empty_val (v : Val) : Bool :=
  v == Val.vstr "" || v == Val.vnull || v == Val.vlist []

/-- The `pop_empty` loop of `pre_save` (lines 302-304): each listed field
whose value is empty is removed. -/
def pop_empty_fold (pe : List String) (data : Rec) : Rec :=
  pe.foldl (fun acc ekey =>
    match rget acc ekey with
    | some v => if is_empty_val v then (rpop acc ekey).1 else acc
    | none => acc) data

/-- `Base.pre_save` (lines 287-306): run the transformer, prepend `meta.log`
to the `logs` history, compute the `n` normalization, restrict/typecast to
`fields` (the `logs` list is re-attached afterwards), and pop the
`pop_empty` fields whose values are empty. -/
def pre_save (p : Params) (ext : Ext) (data : Rec) (meta : Meta) : Rec :=
  let data := run_transformer p ext data
  let logs := Val.vdict meta.log :: getLogs data
  let data := rset data "logs" (Val.vlist logs)
  let data := if p.normalize.isEmpty then data
    else rset data "n" (ext.normalizeF data p.normalize)
  let data := match p.fields with
    | some fs => typecastR ext (extract data fs)
    | none => data
  let data := rset data "logs" (Val.vlist logs)
  pop_empty_fold p.pop_empty data

/-- `Base.save` (lines 308-323): no-op when the data is empty; otherwise
pre-save, and persist through the Backend unless `dry_run` is set.  The
returned record is the would-be-persisted data; the effect list records the
calls to the Backend's persist primitive (`Base._save`). -/
def save (p : Params) (ext : Ext) (data : Rec) (meta : Meta) :
    Option Rec × List Eff :=
  if data.isEmpty then (none, [])
  else
    let d := pre_save p ext data meta
    if p.dry_run then (some d, []) else (some d, [Eff.saved d])

/-- `Base.log_data_format` (lines 240-258): the structured diagnostic dump,
with the data rendering truncated to `log_size` characters.  Python's
falsy-empty checks are modelled on the option payloads; `pformat`/`%s`
rendering is modelled by `reprStr`. -/
def log_data_format (p : Params) (query : Option String) (data : Option Rec) :
    String :=
  let qmsg : List String :=
    match query with
    | some q => if q = "" then [] else ["QUERY: `" ++ q ++ "`"]
    | none => []
  let dmsg : List String :=
    match data with
    | some d =>
        if d.isEmpty then []
        else
          let ddata := extract d p.log_fields
          ["DATA keys: `" ++ reprStr (d.map Prod.fst) ++ "`"] ++
          (if p.log_fields.isEmpty then []
           else ["LOG KEYS: `" ++ reprStr p.log_fields ++ "`"]) ++
          ["DATA dict: " ++ (reprStr ddata).take p.log_size]
    | none => []
  String.intercalate "\n" (qmsg ++ dmsg)

/-- One key field's contribution to the lookup query (`build_query_params`
loop body, lines 332-337): dotted keys are extracted, flattened and
typecast; plain keys are extracted and typecast. -/
def query_part (ext : Ext) (data : Rec) (k : String) : Rec :=
  if str_contains k '.' then typecastR ext (flatR (extract data [k]))
  else typecastR ext (extract data [k])

/-- `Base.build_query_params` (lines 329-348): merge every key field's
typed extraction; an empty result is fatal, distinguishing "no key fields
supplied" from "key fields absent in this record"; otherwise the query is
annotated with the unlimited-results marker `_limit = -1`. -/
def build_query_params (p : Params) (ext : Ext) (data : Rec)
    (_keys : List String) : Except Err Rec :=
  let query := _keys.foldl (fun q k => rupdate q (query_part ext data k)) []
  if query.isEmpty then
    if _keys.isEmpty then Except.error (Err.dvalue "empty op params")
    else
      Except.error (Err.dvalue ("update query is empty for:\n" ++
        log_data_format p (some (reprStr _keys)) (some data)))
  else Except.ok (rset query "_limit" (Val.vint (-1)))

/-- `Base.objects_to_update` (lines 172-181): build the lookup query, merge
in the static `query` option, and fetch the matching records. -/
def objects_to_update (p : Params) (ext : Ext) (b : Backend)
    (keys : List String) (data : Rec) : Except Err (Rec × List Rec) :=
  match build_query_params p ext data keys with
  | Except.error e => Except.error e
  | Except.ok q =>
      let q := match p.query with
        | some qq => update_with q (typecastR ext qq) true [] [] false
        | none => q
      Except.ok (q, b.get_collection q)

/-- `Base.update_objects` lines 191-193: unless `keep_source_logs` is set,
the incoming `logs` history is popped so it cannot overwrite the target's. -/
def update_data_step (p : Params) (data : Rec) : Rec :=
  if p.keep_source_logs then data else (rpop data "logs").1

/-- The meta and incoming data `update_objects` works with: metadata is
extracted (popping `log`) after the `logs` pop. -/
def update_meta (p : Params) (job_log : Rec) (data : Rec) : Meta × Rec :=
  extract_meta job_log (update_data_step p data)

/-- The merged data for one matched record (`update_objects` lines 203-219):
the policy merge of the incoming data onto the target's snapshot, then the
source consolidation under the configured mode. -/
def merge_one (p : Params) (ext : Ext) (meta : Meta) (data : Rec)
    (each_d : Rec) : Rec :=
  let new_data :=
    update_with each_d data p.overwrite p.append_to p.append_to_set p.flatten
  match p.source_consolidation_mode with
  | some mode =>
      let new_source := ext.consolidate (get_source each_d) meta.source mode
      if new_source.isEmpty then new_data
      else rset new_data "source" (Val.vdict new_source)
  | none => new_data

/-- `Base.update_objects` (lines 183-225): warn on ambiguous (>1) matches,
pop the incoming logs, extract meta, then merge-and-save every match.
Returns the update count and the effects. -/
def update_objects (p : Params) (ext : Ext) (job_log : Rec)
    (objects : List Rec) (data : Rec) : Nat × List Eff :=
  let warn : List Eff :=
    if objects.length > 1 then [Eff.warnedMultiple objects.length] else []
  let md := update_meta p job_log data
  let effs := objects.foldl (fun acc each_d =>
      acc ++ (save p ext (merge_one p ext md.1 md.2 each_d) md.1).2) []
  (objects.length, warn ++ effs)

/-- `Base.delete` (lines 227-238): under `dry_run` the pre-deletion
snapshot is returned and the Backend is not touched; otherwise the record
is deleted. -/
def delete (p : Params) (obj : Rec) : Option Rec × List Eff :=
  if p.dry_run then (some obj, [])
  else (none, [Eff.deletedObj obj])

/-- `Base.create` lines 165-166: an incoming `id` is renamed to
`original_id` when identifiers are not kept and `original_id` is not
already present. -/
def create_id_step (p : Params) (data : Rec) : Rec :=
  if rhas data "id" && !p.keep_ids && !rhas data "original_id" then
    let pd := rpop data "id"
    rset pd.1 "original_id" (pd.2.getD Val.vnull)
  else data

/-- The tail of `Base.create` (lines 165-170): the id rename, metadata
extraction, and the save against a freshly allocated empty record. -/
def create_save (p : Params) (ext : Ext) (job_log : Rec) (data : Rec) :
    Option Rec × List Eff :=
  let data := create_id_step p data
  let md := extract_meta job_log data
  save p ext md.2 md.1

/-- `Base.create` (lines 156-170): when `skip_by` keys are configured and a
counted lookup finds an existing match, skip without creating; otherwise
run the save path. -/
def create (p : Params) (ext : Ext) (b : Backend) (job_log : Rec)
    (data : Rec) : Except Err (Option Rec × List Eff) :=
  match p.skip_by with
  | some sb =>
      match build_query_params p ext data sb with
      | Except.error e => Except.error e
      | Except.ok q =>
          let q := rset q "_count" (Val.vint 1)
          if b.count q > 0 then Except.ok (none, [])
          else Except.ok (create_save p ext job_log data)
  | none => Except.ok (create_save p ext job_log data)

/-- The sentinel resolution of `Base.add_extra` (lines 271-275): `__gid__`
becomes a fresh identifier, `__today__` the current timestamp (both taken
from the external collaborator state). -/
def resolve_sentinel (ext : Ext) (v : Val) : Val :=
  if v == Val.vstr "__gid__" then Val.vstr ext.gid
  else if v == Val.vstr "__today__" then ext.today
  else v

/-- `Base.add_extra` (lines 260-277): flatten the configured `extra`
mapping, lift the `_transformer`-named sub-record, resolve the sentinels,
and flat-merge onto the record.  (The `extra_options` merge keywords are
not modelled; the merge uses the default policies.) -/
def add_extra (p : Params) (ext : Ext) (data : Rec) : Rec :=
  match p.extra with
  | none => data
  | some extra =>
      let extra_f := flatR extra
      let pt := rpop extra_f "_transformer"
      let extra_f := match pt.2 with
        | some (Val.vstr fld) => rupdate pt.1 (flatR (extract data [fld]))
        | some _ => pt.1
        | none => extra_f
      let extra_f := extra_f.map (fun kv => (kv.1, resolve_sentinel ext kv.2))
      unflat (update_with_go (flatR data) extra_f true [] [])

/-- The outcome of `Base.process` for one record. -/
inductive ProcOut where
  | notFound
  | updatedN (n : Nat)
  | createDone (res : Option Rec)
  | deletedN (n : Nat)
  deriving Repr, DecidableEq

/-- `Base.process` (lines 110-154): inject the extra fields, then dispatch
on the configured operation; `update`/`upsert`/`delete` require op params,
zero matches on `update`/`delete` log "not found" and return. -/
def process (p : Params) (ext : Ext) (b : Backend) (job_log : Rec)
    (data0 : Rec) : Except Err (ProcOut × List Eff) :=
  let data := add_extra p ext data0
  let op := p.op
  let opk : List String := if p.op_params = "" then [] else split_strip p.op_params
  if (op = "update" ∨ op = "upsert" ∨ op = "delete") ∧ opk = [] then
    Except.error (Err.dvalue ("missing op params for `" ++ op ++ "` operation"))
  else if op = "create" then
    match create p ext b job_log data with
    | Except.error e => Except.error e
    | Except.ok r => Except.ok (ProcOut.createDone r.1, r.2)
  else if op = "update" then
    match objects_to_update p ext b opk data with
    | Except.error e => Except.error e
    | Except.ok pr =>
        if pr.2 = [] then Except.ok (ProcOut.notFound, [Eff.loggedNotFound])
        else
          let uo := update_objects p ext job_log pr.2 data
          Except.ok (ProcOut.updatedN uo.1, uo.2)
  else if op = "upsert" then
    match objects_to_update p ext b opk data with
    | Except.error e => Except.error e
    | Except.ok pr =>
        if pr.2 = [] then
          match create p ext b job_log data with
          | Except.error e => Except.error e
          | Except.ok r => Except.ok (ProcOut.createDone r.1, r.2)
        else
          let uo := update_objects p ext job_log pr.2 data
          Except.ok (ProcOut.updatedN uo.1, uo.2)
  else if op = "delete" then
    match objects_to_update p ext b opk data with
    | Except.error e => Except.error e
    | Except.ok pr =>
        if pr.2 = [] then Except.ok (ProcOut.notFound, [Eff.loggedNotFound])
        else
          let effs := pr.2.foldl (fun acc obj => acc ++ (delete p obj).2) []
          Except.ok (ProcOut.deletedN pr.2.length, effs)
  else
    Except.error (Err.dkey "Must provide `op` param. e.g. op=update:key1,key2" [])

/-! Concrete collaborator and backend instances used to evaluate the
theorems on concrete inputs. -/

/-- Identity collaborators: transformer and caster are identities, the
normalization and consolidation yield nothing. -/
def extId : Ext :=
  ⟨id, fun _ _ => Val.vnull, id, fun _ _ _ => [], "gid0", Val.vnull⟩

/-- A backend with no records. -/
def bNone : Backend := ⟨fun _ => [], fun _ => 0⟩

/-- A backend holding one record matched by every query. -/
def bOne : Backend :=
  ⟨fun _ => [[("a", Val.vstr "0"), ("old", Val.vstr "o")]], fun _ => 1⟩

/-! ## Record-level lemmas -/

theorem rget_rset_self (r : Rec) (k : String) (v : Val) :
    rget (rset r k v) k = some v := by
  induction r with
  | nil => simp [rset, rget]
  | cons kv rest ih =>
      obtain ⟨k1, v1⟩ := kv
      by_cases h : k1 = k
      · subst h; simp [rset, rget]
      · simp [rset, rget, h, ih]

theorem rget_rset_ne (r : Rec) (k k2 : String) (v : Val) (h : k ≠ k2) :
    rget (rset r k v) k2 = rget r k2 := by
  induction r with
  | nil => simp [rset, rget, h]
  | cons kv rest ih =>
      obtain ⟨k1, v1⟩ := kv
      by_cases h1 : k1 = k
      · subst h1; simp [rset, rget, h]
      · simp [rset, rget, h1, ih]

theorem rpop_fst_rget_ne (r : Rec) (k k2 : String) (h : k ≠ k2) :
    rget ((rpop r k).1) k2 = rget r k2 := by
  induction r with
  | nil => simp [rpop]
  | cons kv rest ih =>
      obtain ⟨k1, v1⟩ := kv
      by_cases h1 : k1 = k
      · subst h1; simp [rpop, rget, h]
      · simp [rpop, rget, h1, ih]

theorem rpop_snd_eq_rget (r : Rec) (k : String) :
    (rpop r k).2 = rget r k := by
  induction r with
  | nil => simp [rpop, rget]
  | cons kv rest ih =>
      obtain ⟨k1, v1⟩ := kv
      by_cases h1 : k1 = k
      · subst h1; simp [rpop, rget]
      · simp [rpop, rget, h1, ih]

theorem rget_none_of_not_mem_keys (r : Rec) (k : String)
    (h : k ∉ r.map Prod.fst) : rget r k = none := by
  induction r with
  | nil => simp [rget]
  | cons kv rest ih =>
      obtain ⟨k1, v1⟩ := kv
      simp only [List.map_cons, List.mem_cons] at h
      push_neg at h
      simp [rget, Ne.symm h.1, ih h.2]

theorem rget_rpop_self_of_nodup (r : Rec) (k : String)
    (h : (r.map Prod.fst).Nodup) : rget ((rpop r k).1) k = none := by
  induction r with
  | nil => simp [rpop, rget]
  | cons kv rest ih =>
      obtain ⟨k1, v1⟩ := kv
      simp only [List.map_cons, List.nodup_cons] at h
      by_cases h1 : k1 = k
      · subst h1
        simp only [rpop, if_pos rfl]
        exact rget_none_of_not_mem_keys rest k1 h.1
      · simp [rpop, rget, h1, ih h.2]

theorem rset_ne_nil (r : Rec) (k : String) (v : Val) : rset r k v ≠ [] := by
  cases r with
  | nil => simp [rset]
  | cons kv rest =>
      obtain ⟨k1, v1⟩ := kv
      by_cases h : k1 = k <;> simp [rset, h]

theorem rupdate_eq_nil_iff (r s : Rec) : rupdate r s = [] ↔ r = [] ∧ s = [] := by
  induction s generalizing r with
  | nil => simp [rupdate]
  | cons kv rest ih =>
      constructor
      · intro h
        have : rupdate (rset r kv.1 kv.2) rest = [] := h
        exact absurd ((ih _).mp this).1 (rset_ne_nil r kv.1 kv.2)
      · rintro ⟨_, h⟩
        exact absurd h (by simp)

theorem rget_some_ne_nil (r : Rec) (k : String) (v : Val)
    (h : rget r k = some v) : r ≠ [] := by
  intro he
  subst he
  simp [rget] at h

/-! ## Lemmas about the query fold, the pop-empty fold and the merge -/

theorem foldl_rupdate_eq_nil_iff (f : String → Rec) (keys : List String)
    (init : Rec) :
    keys.foldl (fun q k => rupdate q (f k)) init = [] ↔
      init = [] ∧ ∀ k ∈ keys, f k = [] := by
  induction keys generalizing init with
  | nil => simp
  | cons k0 rest ih =>
      simp only [List.foldl_cons, ih, rupdate_eq_nil_iff, List.mem_cons]
      constructor
      · rintro ⟨⟨h1, h2⟩, h3⟩
        exact ⟨h1, fun k hk => hk.elim (fun he => he ▸ h2) (h3 k)⟩
      · rintro ⟨h1, h2⟩
        exact ⟨⟨h1, h2 k0 (Or.inl rfl)⟩, fun k hk => h2 k (Or.inr hk)⟩

theorem is_empty_val_cons_list (x : Val) (xs : List Val) :
    is_empty_val (Val.vlist (x :: xs)) = false := by
  simp [is_empty_val]

theorem pop_empty_step_keeps (acc : Rec) (ekey k : String) (v : Val)
    (hv : rget acc k = some v) (hne : is_empty_val v = false) :
    rget (match rget acc ekey with
      | some w => if is_empty_val w then (rpop acc ekey).1 else acc
      | none => acc) k = some v := by
  split
  · rename_i w hw
    split
    · rename_i he
      by_cases hk : ekey = k
      · subst hk
        rw [hw] at hv
        injection hv with hv2
        subst hv2
        rw [he] at hne
        cases hne
      · rw [rpop_fst_rget_ne acc ekey k hk]
        exact hv
    · exact hv
  · exact hv

theorem pop_empty_fold_keeps (pe : List String) (acc : Rec) (k : String)
    (v : Val) (hv : rget acc k = some v) (hne : is_empty_val v = false) :
    rget (pop_empty_fold pe acc) k = some v := by
  induction pe generalizing acc with
  | nil => simpa [pop_empty_fold]
  | cons ekey rest ih =>
      have hstep : pop_empty_fold (ekey :: rest) acc = pop_empty_fold rest
          (match rget acc ekey with
            | some w => if is_empty_val w then (rpop acc ekey).1 else acc
            | none => acc) := rfl
      rw [hstep]
      exact ih _ (pop_empty_step_keeps acc ekey k v hv hne)

theorem pre_save_rget_logs (p : Params) (ext : Ext) (data : Rec)
    (meta : Meta) :
    rget (pre_save p ext data meta) "logs" =
      some (Val.vlist (Val.vdict meta.log ::
        getLogs (run_transformer p ext data))) := by
  unfold pre_save
  exact pop_empty_fold_keeps _ _ _ _ (rget_rset_self _ _ _)
    (is_empty_val_cons_list _ _)

theorem pre_save_ne_nil (p : Params) (ext : Ext) (data : Rec) (meta : Meta) :
    pre_save p ext data meta ≠ [] :=
  rget_some_ne_nil _ _ _ (pre_save_rget_logs p ext data meta)

theorem save_effects (p : Params) (ext : Ext) (data : Rec) (meta : Meta) :
    (save p ext data meta).2 =
      if data.isEmpty then []
      else if p.dry_run then []
      else [Eff.saved (pre_save p ext data meta)] := by
  unfold save
  by_cases h : data.isEmpty <;> by_cases h2 : p.dry_run <;> simp [h, h2]

theorem update_key_shape (t : Rec) (k : String) (v : Val) (ow : Bool)
    (ats atss : List String) :
    (∃ w, update_key t k v ow ats atss = rset t k w) ∨
      update_key t k v ow ats atss = t := by
  unfold update_key
  split
  · split <;> exact Or.inl ⟨_, rfl⟩
  · split
    · split <;> exact Or.inl ⟨_, rfl⟩
    · split
      · exact Or.inl ⟨_, rfl⟩
      · exact Or.inr rfl

theorem update_key_rget_ne (t : Rec) (k k2 : String) (v : Val) (ow : Bool)
    (ats atss : List String) (h : k ≠ k2) :
    rget (update_key t k v ow ats atss) k2 = rget t k2 := by
  rcases update_key_shape t k v ow ats atss with ⟨w, hw⟩ | hw
  · rw [hw, rget_rset_ne t k k2 w h]
  · rw [hw]

theorem update_key_rhas_mono (t : Rec) (k k2 : String) (v : Val) (ow : Bool)
    (ats atss : List String) (h : rhas t k2 = true) :
    rhas (update_key t k v ow ats atss) k2 = true := by
  by_cases hk : k = k2
  · subst hk
    rcases update_key_shape t k v ow ats atss with ⟨w, hw⟩ | hw
    · rw [hw]
      simp [rhas, rget_rset_self]
    · rw [hw]; exact h
  · simpa [rhas, update_key_rget_ne t k k2 v ow ats atss hk] using h

theorem update_with_go_rget_absent (t d : Rec) (ow : Bool)
    (ats atss : List String) (k : String) (h : k ∉ d.map Prod.fst) :
    rget (update_with_go t d ow ats atss) k = rget t k := by
  induction d generalizing t with
  | nil => rfl
  | cons kv rest ih =>
      obtain ⟨k1, v1⟩ := kv
      simp only [List.map_cons, List.mem_cons] at h
      push_neg at h
      show rget (update_with_go (update_key t k1 v1 ow ats atss) rest ow ats atss) k = _
      rw [ih _ h.2, update_key_rget_ne t k1 k v1 ow ats atss (Ne.symm h.1)]

theorem update_with_go_overwrite (d : Rec) (t : Rec) (ow : Bool)
    (ats atss : List String) (k : String)
    (hnd : (d.map Prod.fst).Nodup) (ha : k ∉ ats) (hs : k ∉ atss)
    (ht : rhas t k = true) (hd : rhas d k = true) :
    rget (update_with_go t d ow ats atss) k =
      if ow then rget d k else rget t k := by
  induction d generalizing t with
  | nil => simp [rhas, rget] at hd
  | cons kv rest ih =>
      obtain ⟨k1, v1⟩ := kv
      simp only [List.map_cons, List.nodup_cons] at hnd
      by_cases hk : k1 = k
      · subst hk
        show rget (update_with_go (update_key t k1 v1 ow ats atss) rest ow ats atss) k1 = _
        rw [update_with_go_rget_absent _ rest ow ats atss k1 hnd.1]
        unfold update_key
        rw [if_neg (by simpa using ha), if_neg (by simpa using hs)]
        rw [ht]
        cases ow with
        | true => simp [rget_rset_self, rget]
        | false => simp
      · have hd2 : rhas rest k = true := by
          simpa [rhas, rget, hk] using hd
        show rget (update_with_go (update_key t k1 v1 ow ats atss) rest ow ats atss) k = _
        rw [ih _ hnd.2 (update_key_rhas_mono t k1 k v1 ow ats atss ht) hd2]
        have hrest : rget ((k1, v1) :: rest) k = rget rest k := by
          simp [rget, hk]
        rw [hrest]
        cases ow with
        | true => rw [if_pos rfl, if_pos rfl]
        | false =>
            rw [if_neg (by decide), if_neg (by decide)]
            exact update_key_rget_ne t k1 k v1 false ats atss hk

theorem mem_foldl_append {α β : Type} (g : β → List α) (l : List β)
    (init : List α) (a : α) :
    a ∈ l.foldl (fun acc o => acc ++ g o) init ↔
      a ∈ init ∨ ∃ o ∈ l, a ∈ g o := by
  induction l generalizing init with
  | nil => simp
  | cons o rest ih =>
      simp only [List.foldl_cons, ih, List.mem_append, List.mem_cons]
      constructor
      · rintro (⟨h | h⟩ | ⟨o2, h1, h2⟩)
        · exact Or.inl h
        · exact Or.inr ⟨o, Or.inl rfl, h⟩
        · exact Or.inr ⟨o2, Or.inr h1, h2⟩
      · rintro (h | ⟨o2, h1 | h1, h2⟩)
        · exact Or.inl (Or.inl h)
        · exact Or.inl (Or.inr (h1 ▸ h2))
        · exact Or.inr ⟨o2, h1, h2⟩

/-! ## Claim theorems -/

/-- C3: construction of the processor fails with a fatal configuration
error listing the offending keys whenever the raw configuration mapping
contains a key outside the declared option set; if every key is in the
declared set, this validation passes (`Base.validate_ops`). -/
theorem claim_validate_ops_unknown_keys (ks : List String) :
    (validate_ops ks = Except.ok () ↔ ∀ k ∈ ks, k ∈ operations) ∧
    ((¬ ∀ k ∈ ks, k ∈ operations) ↔
      validate_ops ks = Except.error (Err.dkey "Invalid operations"
        (ks.filter (fun k => !operations.contains k)))) ∧
    (∀ k, k ∈ ks.filter (fun k => !operations.contains k) ↔
      k ∈ ks ∧ k ∉ operations) := by
  have hmem : ∀ k, k ∈ ks.filter (fun k => !operations.contains k) ↔
      k ∈ ks ∧ k ∉ operations := by
    intro k
    rw [List.mem_filter]
    simp [List.elem_iff]
  have hempty : (ks.filter (fun k => !operations.contains k)).isEmpty ↔
      ∀ k ∈ ks, k ∈ operations := by
    rw [List.isEmpty_iff, List.filter_eq_nil_iff]
    simp [List.elem_iff]
  refine ⟨?_, ?_, hmem⟩
  · unfold validate_ops
    by_cases h : (ks.filter (fun k => !operations.contains k)).isEmpty
    · rw [if_pos h]
      exact ⟨fun _ => hempty.mp h, fun _ => rfl⟩
    · rw [if_neg h]
      constructor
      · intro hc; exact Except.noConfusion hc
      · intro hall; exact absurd (hempty.mpr hall) h
  · unfold validate_ops
    by_cases h : (ks.filter (fun k => !operations.contains k)).isEmpty
    · rw [if_pos h]
      constructor
      · intro hc; exact absurd (hempty.mp h) hc
      · intro hc; exact Except.noConfusion hc
    · rw [if_neg h]
      exact ⟨fun _ => rfl, fun _ hall => h (hempty.mpr hall)⟩

/-- C7: a save call on empty data is a no-op — it returns without error
and without invoking the Backend's persist primitive — and the pre-save
output is never empty (it always carries the `logs` history), so empty
data at the persist decision can only be empty data on entry
(`Base.save`, `Base.pre_save`). -/
theorem claim_save_empty_noop (p : Params) (ext : Ext) (meta : Meta)
    (data : Rec) :
    save p ext [] meta = (none, []) ∧
    (pre_save p ext data meta).isEmpty = false := by
  constructor
  · rfl
  · cases hps : pre_save p ext data meta with
    | nil => exact absurd hps (pre_save_ne_nil p ext data meta)
    | cons kv rest => rfl

/-- C8: a delete step under `dry_run` returns the record's pre-deletion
snapshot and produces no Backend effect — the record is never removed
(`Base.delete`). -/
theorem claim_delete_dry_run (p : Params) (obj : Rec)
    (h : p.dry_run = true) :
    delete p obj = (some obj, []) := by
  unfold delete
  rw [if_pos h]

theorem claim_delete_dry_run_witness :
    delete { dry_run := true : Params } [("x", Val.vstr "1")] =
      (some [("x", Val.vstr "1")], []) :=
  claim_delete_dry_run { dry_run := true : Params } [("x", Val.vstr "1")] rfl

/-- C10: on create with `keep_ids` unset and an incoming `id` present, the
`id` field is renamed to `original_id` exactly when `original_id` is not
already present; with `original_id` present the data is left unchanged
(`Base.create` lines 165-166). -/
theorem claim_create_id_rename (p : Params) (data : Rec)
    (hnd : (data.map Prod.fst).Nodup) (hk : p.keep_ids = false)
    (hid : rhas data "id" = true) :
    (rhas data "original_id" = false →
      rget (create_id_step p data) "id" = none ∧
      rget (create_id_step p data) "original_id" = rget data "id") ∧
    (rhas data "original_id" = true → create_id_step p data = data) := by
  constructor
  · intro hno
    have hcond : (rhas data "id" && !p.keep_ids && !rhas data "original_id") = true := by
      rw [hid, hk, hno]
      rfl
    unfold create_id_step
    rw [if_pos hcond]
    constructor
    · rw [rget_rset_ne _ _ _ _ (by decide)]
      exact rget_rpop_self_of_nodup data "id" hnd
    · rw [rget_rset_self, rpop_snd_eq_rget]
      obtain ⟨w, hw⟩ := Option.isSome_iff_exists.mp hid
      rw [hw]
      rfl
  · intro hyes
    have hcond : (rhas data "id" && !p.keep_ids && !rhas data "original_id") = false := by
      rw [hyes]
      simp
    unfold create_id_step
    rw [if_neg (by rw [hcond]; exact Bool.false_ne_true)]

theorem claim_create_id_rename_witness :
    (rhas [("id", Val.vstr "7"), ("x", Val.vstr "y")] "original_id" = false →
      rget (create_id_step {} [("id", Val.vstr "7"), ("x", Val.vstr "y")]) "id" = none ∧
      rget (create_id_step {} [("id", Val.vstr "7"), ("x", Val.vstr "y")]) "original_id" =
        rget [("id", Val.vstr "7"), ("x", Val.vstr "y")] "id") ∧
    (rhas [("id", Val.vstr "7"), ("x", Val.vstr "y")] "original_id" = true →
      create_id_step {} [("id", Val.vstr "7"), ("x", Val.vstr "y")] =
        [("id", Val.vstr "7"), ("x", Val.vstr "y")]) :=
  claim_create_id_rename {} [("id", Val.vstr "7"), ("x", Val.vstr "y")]
    (by decide) rfl (by decide)

/-- C1 (amended): in the merge of incoming data onto an existing record
(`Base.update_objects` lines 203-208), a field present in both records —
provided it is not listed in `append_to` or `append_to_set` and `flatten`
is not set — retains the existing record's value when `overwrite` is false
and takes the incoming data's value when `overwrite` is true. -/
theorem claim_merge_overwrite_policy (p : Params) (each_d data : Rec)
    (k : String) (hfl : p.flatten = false)
    (hnd : (data.map Prod.fst).Nodup)
    (ha : k ∉ p.append_to) (hs : k ∉ p.append_to_set)
    (ht : rhas each_d k = true) (hd : rhas data k = true) :
    rget (update_with each_d data p.overwrite p.append_to p.append_to_set
        p.flatten) k =
      if p.overwrite then rget data k else rget each_d k := by
  unfold update_with
  rw [hfl, if_neg (by decide)]
  exact update_with_go_overwrite data each_d p.overwrite p.append_to
    p.append_to_set k hnd ha hs ht hd

/-- C1 counterexample: with `overwrite` false and `tags` listed in
`append_to`, a field present in both records does not retain the existing
record's value — the merge concatenates instead. -/
theorem claim_merge_overwrite_policy_counterexample :
    rhas [("tags", Val.vlist [Val.vint 1])] "tags" = true ∧
    rhas [("tags", Val.vlist [Val.vint 2])] "tags" = true ∧
    ({ overwrite := false, append_to := ["tags"] : Params }).overwrite = false ∧
    rget (update_with [("tags", Val.vlist [Val.vint 1])]
        [("tags", Val.vlist [Val.vint 2])]
        ({ overwrite := false, append_to := ["tags"] : Params }).overwrite
        ({ overwrite := false, append_to := ["tags"] : Params }).append_to
        ({ overwrite := false, append_to := ["tags"] : Params }).append_to_set
        ({ overwrite := false, append_to := ["tags"] : Params }).flatten)
        "tags" ≠
      rget [("tags", Val.vlist [Val.vint 1])] "tags" := by
  refine ⟨rfl, rfl, rfl, ?_⟩
  intro h
  exact Option.noConfusion h (fun h2 => Val.noConfusion h2 (fun h3 =>
    List.noConfusion (List.noConfusion h3 (fun _ h4 => h4))))

theorem claim_merge_overwrite_policy_witness :
    rget (update_with [("a", Val.vstr "old")] [("a", Val.vstr "new")]
        ({ overwrite := false : Params }).overwrite
        ({ overwrite := false : Params }).append_to
        ({ overwrite := false : Params }).append_to_set
        ({ overwrite := false : Params }).flatten) "a" =
      if ({ overwrite := false : Params }).overwrite
      then rget [("a", Val.vstr "new")] "a"
      else rget [("a", Val.vstr "old")] "a" :=
  claim_merge_overwrite_policy { overwrite := false : Params }
    [("a", Val.vstr "old")] [("a", Val.vstr "new")] "a" rfl (by decide)
    (by decide) (by decide) rfl rfl

/-- C4: building the lookup query fails exactly when the extracted query is
empty, and the failure distinguishes the two cases — an empty key-field
list gives "empty op params", while key fields that are absent in the
record give an error carrying the record's log-formatted dump; a non-empty
extraction succeeds and is annotated with the unlimited-results marker
(`Base.build_query_params`). -/
theorem claim_build_query_empty (p : Params) (ext : Ext) (data : Rec)
    (keys : List String) :
    ((∃ e, build_query_params p ext data keys = Except.error e) ↔
      ∀ k ∈ keys, query_part ext data k = []) ∧
    (keys = [] → build_query_params p ext data keys =
      Except.error (Err.dvalue "empty op params")) ∧
    (keys ≠ [] → (∀ k ∈ keys, query_part ext data k = []) →
      build_query_params p ext data keys = Except.error (Err.dvalue
        ("update query is empty for:\n" ++
          log_data_format p (some (reprStr keys)) (some data)))) ∧
    ((¬ ∀ k ∈ keys, query_part ext data k = []) →
      ∃ q, build_query_params p ext data keys = Except.ok q ∧
        rget q "_limit" = some (Val.vint (-1))) := by
  have hQ2 : (keys.foldl (fun q k => rupdate q (query_part ext data k)) [] = []) ↔
      ∀ k ∈ keys, query_part ext data k = [] := by
    simpa using foldl_rupdate_eq_nil_iff (fun k => query_part ext data k) keys []
  by_cases hq : keys.foldl (fun q k => rupdate q (query_part ext data k)) [] = []
  · have hbq : build_query_params p ext data keys =
        (if keys.isEmpty then Except.error (Err.dvalue "empty op params")
         else Except.error (Err.dvalue ("update query is empty for:\n" ++
           log_data_format p (some (reprStr keys)) (some data)))) := by
      simp only [build_query_params]
      rw [hq]
      rw [if_pos (show (([] : Rec)).isEmpty = true from rfl)]
    refine ⟨⟨fun _ => hQ2.mp hq, fun _ => ?_⟩, fun hk => ?_, fun _ _ => ?_, fun hno => ?_⟩
    · rw [hbq]
      by_cases hke : keys.isEmpty
      · rw [if_pos hke]; exact ⟨_, rfl⟩
      · rw [if_neg hke]; exact ⟨_, rfl⟩
    · rw [hbq, if_pos (by rw [hk]; rfl)]
    · rename_i hkne _
      rw [hbq, if_neg (by simpa [List.isEmpty_iff] using hkne)]
    · exact absurd (hQ2.mp hq) hno
  · have hbq : build_query_params p ext data keys =
        Except.ok (rset (keys.foldl (fun q k => rupdate q (query_part ext data k)) [])
          "_limit" (Val.vint (-1))) := by
      simp only [build_query_params]
      rw [if_neg (by simpa [List.isEmpty_iff] using hq)]
    refine ⟨⟨fun he => ?_, fun hall => absurd (hQ2.mpr hall) hq⟩,
      fun hk => ?_, fun _ hall => absurd (hQ2.mpr hall) hq, fun _ => ?_⟩
    · obtain ⟨e, he⟩ := he
      rw [hbq] at he
      exact Except.noConfusion he
    · subst hk
      exact absurd rfl hq
    · exact ⟨_, hbq, rget_rset_self _ _ _⟩

theorem claim_build_query_empty_witness :
    build_query_params {} extId [("a", Val.vstr "1")] ["zzz"] =
      Except.error (Err.dvalue ("update query is empty for:\n" ++
        log_data_format {} (some (reprStr ["zzz"]))
          (some [("a", Val.vstr "1")]))) :=
  ((claim_build_query_empty {} extId [("a", Val.vstr "1")] ["zzz"]).2.2.1
    (by decide) (by decide))

/-- C9: a create with `skip_by` keys configured whose counted lookup finds
one or more existing matches skips the record — it returns without saving
and produces no Backend effect, so no new entry results (`Base.create`
lines 156-163). -/
theorem claim_create_skip_by (p : Params) (ext : Ext) (b : Backend)
    (job_log : Rec) (data : Rec) (sb : List String) (q : Rec)
    (hsb : p.skip_by = some sb)
    (hq : build_query_params p ext data sb = Except.ok q)
    (hcount : b.count (rset q "_count" (Val.vint 1)) > 0) :
    create p ext b job_log data = Except.ok (none, []) := by
  simp only [create, hsb, hq]
  rw [if_pos hcount]

theorem claim_create_skip_by_witness :
    create { skip_by := some ["email"] : Params } extId bOne []
        [("email", Val.vstr "a@b.com")] = Except.ok (none, []) :=
  claim_create_skip_by { skip_by := some ["email"] : Params } extId bOne []
    [("email", Val.vstr "a@b.com")] ["email"]
    [("email", Val.vstr "a@b.com"), ("_limit", Val.vint (-1))]
    rfl (by decide) (by decide)

theorem run_transformer_none (p : Params) (ext : Ext) (data : Rec)
    (h : p.transformer = none) : run_transformer p ext data = data := by
  unfold run_transformer
  rw [h]

theorem getLogs_congr (a b : Rec) (h : rget a "logs" = rget b "logs") :
    getLogs a = getLogs b := by
  unfold getLogs
  rw [h]

theorem get_log_congr (a b : Rec) (h : rget a "log" = rget b "log") :
    get_log a = get_log b := by
  unfold get_log
  rw [h]

theorem create_id_step_rget_ne (p : Params) (data : Rec) (k : String)
    (h1 : k ≠ "id") (h2 : k ≠ "original_id") :
    rget (create_id_step p data) k = rget data k := by
  unfold create_id_step
  split
  · rw [rget_rset_ne _ _ _ _ (Ne.symm h2), rpop_fst_rget_ne _ _ _ (Ne.symm h1)]
  · rfl

theorem create_save_some (p : Params) (ext : Ext) (job_log data d : Rec)
    (effs : List Eff)
    (h : create_save p ext job_log data = (some d, effs)) :
    d = pre_save p ext (extract_meta job_log (create_id_step p data)).2
      (extract_meta job_log (create_id_step p data)).1 := by
  simp only [create_save, save] at h
  split at h
  · exact Option.noConfusion (congrArg Prod.fst h)
  · split at h
    · exact (Option.some.inj (congrArg Prod.fst h)).symm
    · exact (Option.some.inj (congrArg Prod.fst h)).symm

/-- C6 (amended): a create on incoming data carrying a `logs` field keeps
that history — `Base.create` does not run the `logs`-dropping step of the
update path, so the saved record's `logs` are the operation's log entry
prepended to the incoming record's prior entries (`Base.create`,
`Base.pre_save`). -/
theorem claim_create_keeps_incoming_logs (p : Params) (ext : Ext)
    (b : Backend) (job_log data d : Rec) (effs : List Eff)
    (htr : p.transformer = none)
    (hc : create p ext b job_log data = Except.ok (some d, effs)) :
    rget d "logs" = some (Val.vlist (Val.vdict
      (update_with (get_log data) job_log true [] [] false) ::
        getLogs data)) := by
  have hcs : create_save p ext job_log data = (some d, effs) := by
    cases hsb : p.skip_by with
    | none =>
        simp only [create, hsb] at hc
        exact Except.ok.inj hc
    | some sb =>
        simp only [create, hsb] at hc
        cases hbq : build_query_params p ext data sb with
        | error e =>
            simp only [hbq] at hc
            exact Except.noConfusion hc
        | ok q =>
            simp only [hbq] at hc
            split at hc
            · exact Option.noConfusion (congrArg Prod.fst (Except.ok.inj hc))
            · exact Except.ok.inj hc
  have hd := create_save_some p ext job_log data d effs hcs
  have h1 : (extract_meta job_log (create_id_step p data)).1.log =
      update_with (get_log data) job_log true [] [] false := by
    simp only [extract_meta, extract_log]
    rw [get_log_congr _ data
      (create_id_step_rget_ne p data "log" (by decide) (by decide))]
  have h2 : getLogs (run_transformer p ext
      (extract_meta job_log (create_id_step p data)).2) = getLogs data := by
    rw [run_transformer_none p ext _ htr]
    apply getLogs_congr
    simp only [extract_meta, extract_log]
    rw [rpop_fst_rget_ne _ _ _ (by decide)]
    exact create_id_step_rget_ne p data "logs" (by decide) (by decide)
  rw [hd, pre_save_rget_logs, h1, h2]

/-- C6 counterexample: a create whose incoming data carries a `logs` entry
saves that entry — the incoming log history is not dropped. -/
theorem claim_create_keeps_incoming_logs_counterexample :
    ({} : Params).keep_source_logs = false ∧
    create {} extId bNone []
        [("a", Val.vstr "x"),
         ("logs", Val.vlist [Val.vdict [("old", Val.vstr "1")]])] =
      Except.ok (some [("a", Val.vstr "x"),
          ("logs", Val.vlist [Val.vdict [],
            Val.vdict [("old", Val.vstr "1")]])],
        [Eff.saved [("a", Val.vstr "x"),
          ("logs", Val.vlist [Val.vdict [],
            Val.vdict [("old", Val.vstr "1")]])]]) := by
  exact ⟨rfl, by decide⟩

theorem claim_create_keeps_incoming_logs_witness :
    rget [("a", Val.vstr "x"),
        ("logs", Val.vlist
          [Val.vdict [("s", Val.vstr "L"), ("j", Val.vstr "J")],
           Val.vdict [("old", Val.vstr "1")]])] "logs" =
      some (Val.vlist (Val.vdict
        (update_with
          (get_log [("a", Val.vstr "x"),
            ("log", Val.vdict [("s", Val.vstr "L")]),
            ("logs", Val.vlist [Val.vdict [("old", Val.vstr "1")]])])
          [("j", Val.vstr "J")] true [] [] false) ::
        getLogs [("a", Val.vstr "x"),
          ("log", Val.vdict [("s", Val.vstr "L")]),
          ("logs", Val.vlist [Val.vdict [("old", Val.vstr "1")]])])) :=
  claim_create_keeps_incoming_logs {} extId bNone
    [("j", Val.vstr "J")]
    [("a", Val.vstr "x"), ("log", Val.vdict [("s", Val.vstr "L")]),
     ("logs", Val.vlist [Val.vdict [("old", Val.vstr "1")]])]
    [("a", Val.vstr "x"),
     ("logs", Val.vlist
       [Val.vdict [("s", Val.vstr "L"), ("j", Val.vstr "J")],
        Val.vdict [("old", Val.vstr "1")]])]
    [Eff.saved [("a", Val.vstr "x"),
      ("logs", Val.vlist
        [Val.vdict [("s", Val.vstr "L"), ("j", Val.vstr "J")],
         Val.vdict [("old", Val.vstr "1")]])]]
    rfl (by decide)

theorem get_log_update_data_step (p : Params) (data : Rec) :
    get_log (update_data_step p data) = get_log data := by
  unfold update_data_step
  split
  · rfl
  · exact get_log_congr _ _ (rpop_fst_rget_ne data "logs" "log" (by decide))

/-- C5: every record persisted by the merge-and-save path has a non-empty
`logs` sequence whose head is the current operation's log entry — the
incoming record's `log` merged with the run-wide job log
(`Base.update_objects`, `Base.pre_save`, `Base.extract_meta`); this holds
for every configuration, including a `fields` restriction, because
`pre_save` re-attaches the `logs` list after the restriction. -/
theorem claim_merge_save_logs_head (p : Params) (ext : Ext) (job_log : Rec)
    (objects : List Rec) (data : Rec) (d : Rec)
    (hmem : Eff.saved d ∈ (update_objects p ext job_log objects data).2) :
    ∃ rest, rget d "logs" = some (Val.vlist (Val.vdict
      (update_with (get_log data) job_log true [] [] false) :: rest)) := by
  simp only [update_objects, List.mem_append] at hmem
  rcases hmem with h | h
  · split at h
    · simp at h
    · simp at h
  · rw [mem_foldl_append] at h
    rcases h with h | ⟨o, ho, hsave⟩
    · simp at h
    · rw [save_effects] at hsave
      split at hsave
      · simp at hsave
      · split at hsave
        · simp at hsave
        · rw [List.mem_singleton] at hsave
          have hd := Eff.saved.inj hsave
          have hlog : (update_meta p job_log data).1.log =
              update_with (get_log data) job_log true [] [] false := by
            simp only [update_meta, extract_meta, extract_log]
            rw [get_log_update_data_step]
          rw [hd, pre_save_rget_logs, hlog]
          exact ⟨_, rfl⟩

theorem claim_merge_save_logs_head_witness :
    ∃ rest, rget [("a", Val.vstr "1"),
        ("logs", Val.vlist [Val.vdict
          [("s", Val.vstr "L"), ("j", Val.vstr "J")]])] "logs" =
      some (Val.vlist (Val.vdict
        (update_with
          (get_log [("a", Val.vstr "1"),
            ("log", Val.vdict [("s", Val.vstr "L")])])
          [("j", Val.vstr "J")] true [] [] false) :: rest)) :=
  claim_merge_save_logs_head {} extId [("j", Val.vstr "J")]
    [[("a", Val.vstr "0")]]
    [("a", Val.vstr "1"), ("log", Val.vdict [("s", Val.vstr "L")])]
    [("a", Val.vstr "1"),
     ("logs", Val.vlist [Val.vdict [("s", Val.vstr "L"), ("j", Val.vstr "J")]])]
    (by decide)

theorem foldl_append_join {α β : Type} (g : β → List α) (l : List β)
    (init : List α) :
    l.foldl (fun acc o => acc ++ g o) init = init ++ (l.map g).flatten := by
  induction l generalizing init with
  | nil => simp
  | cons o rest ih => simp [ih, List.append_assoc]

theorem map_join_singletons {α β : Type} (g : β → List α) (f : β → α)
    (l : List β) (h : ∀ o ∈ l, g o = [f o]) :
    (l.map g).flatten = l.map f := by
  induction l with
  | nil => rfl
  | cons o rest ih =>
      simp only [List.map_cons, List.flatten_cons]
      rw [h o (List.mem_cons_self o rest),
        ih (fun o2 ho2 => h o2 (List.mem_cons_of_mem o ho2))]
      rfl

theorem process_update_reduce (p : Params) (ext : Ext) (b : Backend)
    (job_log : Rec) (data0 : Rec) (q : Rec) (objs : List Rec)
    (hop : p.op = "update")
    (hne : (if p.op_params = "" then [] else split_strip p.op_params) ≠ [])
    (hq : objects_to_update p ext b
      (if p.op_params = "" then [] else split_strip p.op_params)
      (add_extra p ext data0) = Except.ok (q, objs)) :
    process p ext b job_log data0 =
      (if objs = [] then Except.ok (ProcOut.notFound, [Eff.loggedNotFound])
       else Except.ok (ProcOut.updatedN
         (update_objects p ext job_log objs (add_extra p ext data0)).1,
         (update_objects p ext job_log objs (add_extra p ext data0)).2)) := by
  simp only [process]
  rw [if_neg (fun hand => hne hand.2)]
  rw [if_neg (show ¬p.op = "create" by rw [hop]; decide)]
  rw [if_pos hop]
  simp only [hq]

/-- C2: processing a record under the update operation — zero matches log
"not found" and return without error; one or more matches are each merged
and saved, with more than one match only adding a warning and never
blocking any update; the number of updated records equals the number of
matches (`Base.process`, `Base.update_objects`). -/
theorem claim_process_update (p : Params) (ext : Ext) (b : Backend)
    (job_log : Rec) (data0 : Rec) (q : Rec) (objs : List Rec)
    (hop : p.op = "update")
    (hne : (if p.op_params = "" then [] else split_strip p.op_params) ≠ [])
    (hq : objects_to_update p ext b
      (if p.op_params = "" then [] else split_strip p.op_params)
      (add_extra p ext data0) = Except.ok (q, objs)) :
    (objs = [] → process p ext b job_log data0 =
      Except.ok (ProcOut.notFound, [Eff.loggedNotFound])) ∧
    (objs ≠ [] → process p ext b job_log data0 =
      Except.ok (ProcOut.updatedN objs.length,
        (update_objects p ext job_log objs (add_extra p ext data0)).2)) ∧
    ((update_objects p ext job_log objs (add_extra p ext data0)).1 =
      objs.length) ∧
    (p.dry_run = false →
      (∀ o ∈ objs,
        merge_one p ext (update_meta p job_log (add_extra p ext data0)).1
          (update_meta p job_log (add_extra p ext data0)).2 o ≠ []) →
      (update_objects p ext job_log objs (add_extra p ext data0)).2 =
        (if objs.length > 1 then [Eff.warnedMultiple objs.length] else []) ++
        objs.map (fun o => Eff.saved (pre_save p ext
          (merge_one p ext (update_meta p job_log (add_extra p ext data0)).1
            (update_meta p job_log (add_extra p ext data0)).2 o)
          (update_meta p job_log (add_extra p ext data0)).1))) := by
  have hred := process_update_reduce p ext b job_log data0 q objs hop hne hq
  refine ⟨?_, ?_, rfl, ?_⟩
  · intro h0
    rw [hred, if_pos h0]
  · intro h0
    rw [hred, if_neg h0]
    rfl
  · intro hdr hmne
    simp only [update_objects]
    congr 1
    rw [foldl_append_join, List.nil_append]
    apply map_join_singletons
    intro o ho
    rw [save_effects]
    rw [if_neg (fun hie => hmne o ho (List.isEmpty_iff.mp hie))]
    rw [if_neg (by simp [hdr])]

theorem claim_process_update_witness :
    process { op := "update", op_params := "a" : Params } extId bOne []
        [("a", Val.vstr "1"), ("nm", Val.vstr "Bob")] =
      Except.ok (ProcOut.updatedN
        ([[("a", Val.vstr "0"), ("old", Val.vstr "o")]] : List Rec).length,
        (update_objects { op := "update", op_params := "a" : Params } extId []
          [[("a", Val.vstr "0"), ("old", Val.vstr "o")]]
          (add_extra { op := "update", op_params := "a" : Params } extId
            [("a", Val.vstr "1"), ("nm", Val.vstr "Bob")])).2) := by
  have h := claim_process_update
    { op := "update", op_params := "a" : Params } extId bOne []
    [("a", Val.vstr "1"), ("nm", Val.vstr "Bob")]
    [("a", Val.vstr "1"), ("_limit", Val.vint (-1))]
    [[("a", Val.vstr "0"), ("old", Val.vstr "o")]]
    rfl (by decide) (by decide)
  exact h.2.1 (by decide)

end Datasets
